import Mathlib

/-!
# Verification of the `golang-db` filesystem document store

Shallow embedding of `src/main.go` (package `main`): a directory-rooted JSON
document store (`Driver`) with operations `Write`, `Read`, `ReadAll`,
`Delete`, the shared `stat` probe, and the per-collection mutex registry
`getOrCreateMutex`.

Modelling conventions:
* Filesystem paths are lists of path components relative to the store's root
  directory (`d.dir` is the empty path `[]`).  `filepath.Join` is modelled by
  `pjoin`, which drops empty components, matching `filepath.Join`'s behaviour
  on the names the driver joins (plain names without separators or dot
  segments).
* File contents are `List Char` (Go `[]byte` of UTF-8 text).
* `encoding/json` is external library code; it is modelled by an executable
  codec on `JValue` (JSON values with integer numbers): `renderV` models
  `json.MarshalIndent(v, "", "\t")` and `parseVal`/`unmarshal` model
  `json.Unmarshal`.  The codec escapes `"` and `\` inside strings; it is
  self-consistent (parse inverts render), which is the property the driver
  relies on.
* A value passed to `Write` is a `GoValue`: either a JSON-representable value
  or an `unsupported` one (e.g. a channel), on which `json.MarshalIndent`
  fails.
-/

/-- JSON values: the model of what `encoding/json` can (de)serialize.
Numbers are modelled as integers; strings and object keys as char lists. -/
inductive JValue where
  | null : JValue
  | bool (b : Bool) : JValue
  | num (n : Int) : JValue
  | str (s : List Char) : JValue
  | arr (elems : List JValue) : JValue
  | obj (fields : List (List Char × JValue)) : JValue

/-- The `{` character (written via its code point). -/
def lbraceC : Char := Char.ofNat 123

/-- The `}` character (written via its code point). -/
def rbraceC : Char := Char.ofNat 125

/-- Decimal digit to its character. -/
def digitChar : Nat → Char
  | 0 => '0' | 1 => '1' | 2 => '2' | 3 => '3' | 4 => '4'
  | 5 => '5' | 6 => '6' | 7 => '7' | 8 => '8' | _ => '9'

/-- Decimal digits of `n`, most significant first; `[]` for `n = 0`.
The first argument is structural fuel (any bound `≥ n` works). -/
def natDigitsAux : Nat → Nat → List Char
  | 0, _ => []
  | fuel + 1, n => if n = 0 then [] else natDigitsAux fuel (n / 10) ++ [digitChar (n % 10)]

/-- Decimal representation of a natural number (`"0"` for zero). -/
def natDigits (n : Nat) : List Char := if n = 0 then ['0'] else natDigitsAux n n

/-- Rendering of a JSON number, as Go prints integers. -/
def renderInt (n : Int) : List Char :=
  if n < 0 then '-' :: natDigits n.natAbs else natDigits n.toNat

/-- Escape one character of a JSON string (`"` and `\` get a backslash). -/
def escChar (c : Char) : List Char :=
  if c = '"' ∨ c = '\\' then ['\\', c] else [c]

/-- Escape a JSON string body. -/
def escChars : List Char → List Char
  | [] => []
  | c :: cs => escChar c ++ escChars cs

/-- `n` tab characters: the indentation `json.MarshalIndent(v, "", "\t")`
puts in front of a nesting level `n` element. -/
def tabsC (n : Nat) : List Char := List.replicate n '\t'

/-- The keyword `null` as characters. -/
def nullTok : List Char := ['n', 'u', 'l', 'l']

/-- The keyword a boolean renders to, as characters. -/
def boolTok : Bool → List Char
  | true => ['t', 'r', 'u', 'e']
  | false => ['f', 'a', 'l', 's', 'e']

mutual
/-- Model of `json.MarshalIndent(v, "", "\t")`: render `v` at indentation
level `ind`. -/
def renderV (ind : Nat) : JValue → List Char
  | .null => nullTok
  | .bool b => boolTok b
  | .num n => renderInt n
  | .str s => '"' :: (escChars s ++ ['"'])
  | .arr [] => ['[', ']']
  | .arr (x :: xs) =>
      '[' :: '\n' :: (tabsC (ind + 1) ++ renderV (ind + 1) x ++ renderArrTail (ind + 1) ind xs)
  | .obj [] => [lbraceC, rbraceC]
  | .obj ((k, v) :: fs) =>
      lbraceC :: '\n' :: (tabsC (ind + 1) ++ ('"' :: (escChars k ++ ['"', ':', ' '])) ++
        renderV (ind + 1) v ++ renderObjTail (ind + 1) ind fs)

/-- The rendering that follows the first element of a non-empty array:
either the closing bracket or a comma and the next element. -/
def renderArrTail (i outer : Nat) : List JValue → List Char
  | [] => '\n' :: (tabsC outer ++ [']'])
  | y :: ys => ',' :: '\n' :: (tabsC i ++ renderV i y ++ renderArrTail i outer ys)

/-- The rendering that follows the first field of a non-empty object. -/
def renderObjTail (i outer : Nat) : List (List Char × JValue) → List Char
  | [] => '\n' :: (tabsC outer ++ [rbraceC])
  | (k, v) :: fs =>
      ',' :: '\n' :: (tabsC i ++ ('"' :: (escChars k ++ ['"', ':', ' '])) ++
        renderV i v ++ renderObjTail i outer fs)
end

/-- Whitespace as `encoding/json` skips it. -/
def isWsC (c : Char) : Bool := c = ' ' || c = '\t' || c = '\n' || c = '\r'

/-- ASCII decimal digit test. -/
def isDigitC (c : Char) : Bool := 48 ≤ c.toNat && c.toNat ≤ 57

/-- Drop leading whitespace. -/
def skipWs : List Char → List Char
  | [] => []
  | c :: cs => if isWsC c then skipWs cs else c :: cs

/-- `true` iff the input does not begin with a digit (so a maximal-munch
number parse that stops right before it is correct). -/
def digitFreeB : List Char → Bool
  | [] => true
  | c :: _ => !isDigitC c

/-- Parse a maximal run of decimal digits, accumulating onto `acc`. -/
def parseDigits : List Char → Nat → Nat × List Char
  | [], acc => (acc, [])
  | c :: cs, acc =>
      if isDigitC c then parseDigits cs (acc * 10 + (c.toNat - 48)) else (acc, c :: cs)

/-- Parse a JSON string body (after the opening quote), undoing `escChars`. -/
def parseStrBody : List Char → Option (List Char × List Char)
  | [] => none
  | c :: cs =>
      if c = '"' then some ([], cs)
      else if c = '\\' then
        match cs with
        | [] => none
        | e :: cs' => (parseStrBody cs').map (fun p => (e :: p.1, p.2))
      else (parseStrBody cs).map (fun p => (c :: p.1, p.2))

mutual
/-- Recursive-descent JSON value parser (model of `encoding/json`'s decoder).
`fuel` bounds the nesting/element recursion; it only needs to exceed the
structural size of the parsed value. -/
def parseVal : Nat → List Char → Option (JValue × List Char)
  | 0, _ => none
  | _ + 1, [] => none
  | fuel + 1, c :: cs =>
      if isDigitC c then
        let p := parseDigits (c :: cs) 0
        some (.num (Int.ofNat p.1), p.2)
      else if c = '-' then
        match cs with
        | [] => none
        | d :: cs' =>
            if isDigitC d then
              let p := parseDigits (d :: cs') 0
              some (.num (-(Int.ofNat p.1)), p.2)
            else none
      else if c = '"' then
        match parseStrBody cs with
        | some (s, rest) => some (.str s, rest)
        | none => none
      else if c = 'n' then
        match cs with
        | 'u' :: 'l' :: 'l' :: rest => some (.null, rest)
        | _ => none
      else if c = 't' then
        match cs with
        | 'r' :: 'u' :: 'e' :: rest => some (.bool true, rest)
        | _ => none
      else if c = 'f' then
        match cs with
        | 'a' :: 'l' :: 's' :: 'e' :: rest => some (.bool false, rest)
        | _ => none
      else if c = '[' then
        match skipWs cs with
        | [] => none
        | d :: rest1 =>
            if d = ']' then some (.arr [], rest1)
            else
              match parseElems fuel (d :: rest1) with
              | some (vs, rest2) => some (.arr vs, rest2)
              | none => none
      else if c = lbraceC then
        match skipWs cs with
        | [] => none
        | d :: rest1 =>
            if d = rbraceC then some (.obj [], rest1)
            else
              match parseFields fuel (d :: rest1) with
              | some (fs, rest2) => some (.obj fs, rest2)
              | none => none
      else none

/-- Parse the elements of a non-empty array, up to and including `]`. -/
def parseElems : Nat → List Char → Option (List JValue × List Char)
  | 0, _ => none
  | fuel + 1, s =>
      match parseVal fuel s with
      | none => none
      | some (v, s1) =>
          match skipWs s1 with
          | [] => none
          | d :: s2 =>
              if d = ',' then
                match parseElems fuel (skipWs s2) with
                | some (vs, s3) => some (v :: vs, s3)
                | none => none
              else if d = ']' then some ([v], s2)
              else none

/-- Parse the fields of a non-empty object, up to and including `}`. -/
def parseFields : Nat → List Char → Option (List (List Char × JValue) × List Char)
  | 0, _ => none
  | fuel + 1, s =>
      match s with
      | '"' :: cs =>
          match parseStrBody cs with
          | none => none
          | some (k, s1) =>
              match skipWs s1 with
              | ':' :: s2 =>
                  match parseVal fuel (skipWs s2) with
                  | none => none
                  | some (v, s3) =>
                      match skipWs s3 with
                      | [] => none
                      | d :: s4 =>
                          if d = ',' then
                            match parseFields fuel (skipWs s4) with
                            | some (fs, s5) => some ((k, v) :: fs, s5)
                            | none => none
                          else if d = rbraceC then some ([(k, v)], s4)
                          else none
              | _ => none
      | _ => none
end

/-- Model of `json.Unmarshal` on a whole buffer: parse one value, allow
surrounding whitespace, reject trailing garbage. -/
def unmarshal (b : List Char) : Option JValue :=
  match parseVal (b.length + 1) (skipWs b) with
  | some (v, rest) => if skipWs rest = [] then some v else none
  | none => none

/-- A Go value handed to `Driver.Write`: either JSON-representable or not
(e.g. a channel value, on which `json.MarshalIndent` errors). -/
inductive GoValue where
  | json (v : JValue) : GoValue
  | unsupported : GoValue

/-- Model of `json.MarshalIndent(v, "", "\t")`. -/
def marshalIndent : GoValue → Option (List Char)
  | .json v => some (renderV 0 v)
  | .unsupported => none


/-! ## Filesystem model

Paths are component lists relative to the store root (`Driver.dir` is `[]`).
The filesystem is an association list from paths to entries; lookup takes the
first match, and all mutations keep shadowed bindings out of the way. -/

/-- A path relative to the store's root directory. -/
abbrev FPath := List String

/-- A filesystem entry: a directory or a regular file with its bytes. -/
inductive Entry where
  | dir : Entry
  | file (content : List Char) : Entry
  deriving DecidableEq

/-- Filesystem state: association list from paths to entries. -/
abbrev FS := List (FPath × Entry)

/-- `os.Stat`-style lookup of the entry at a path (first binding wins). -/
def FS.entry : FS → FPath → Option Entry
  | [], _ => none
  | (q, e) :: rest, p => if p = q then some e else FS.entry rest p

/-- Remove every binding for path `p`. -/
def FS.del : FS → FPath → FS
  | [], _ => []
  | (q, e) :: rest, p => if q = p then FS.del rest p else (q, e) :: FS.del rest p

/-- Bind path `p` to entry `e` (replacing any previous binding). -/
def FS.set (fs : FS) (p : FPath) (e : Entry) : FS := (p, e) :: FS.del fs p

/-- Model of `os.RemoveAll p`: drop `p` and everything below it.  On a
nonexistent path this is a no-op, and like `os.RemoveAll` it reports success. -/
def removeAll : FS → FPath → FS
  | [], _ => []
  | (q, e) :: rest, p => if p <+: q then removeAll rest p else (q, e) :: removeAll rest p

/-- Model of `filepath.Join p s`: empty components are dropped. -/
def pjoin (p : FPath) (s : String) : FPath := if s = "" then p else p ++ [s]

/-- `p` with `".json"` appended to the path *string*, i.e. to its last
component (what `path + ".json"` does in Go).  For the root path `[]` the
Go code would probe a `"<root>.json"` sibling of the root directory, which
is outside the modelled tree; we keep `[]`, and never rely on that corner. -/
def jsonSibling : FPath → FPath
  | [] => []
  | [a] => [a ++ ".json"]
  | a :: rest => a :: jsonSibling rest

/-- Errors the driver surfaces.  Constructors keep the distinctions the Go
error values make (which argument was missing, which path was not found,
which operation failed). -/
inductive DBError where
  | missingCollectionWrite : DBError
  | missingResourceWrite : DBError
  | missingCollectionRead : DBError
  | missingResourceRead : DBError
  | missingCollectionReadAll : DBError
  | mkdirFailed : DBError
  | marshalUnsupported : DBError
  | writeFileFailed : DBError
  | renameFailed : DBError
  | statNotFound (p : FPath) : DBError
  | readFileFailed (p : FPath) : DBError
  | unmarshalFailed : DBError
  | deleteNotFound (p : FPath) : DBError
  | readDirFailed : DBError
  deriving DecidableEq

/-- Model of the driver's `stat` helper (src/main.go:188-193): `os.Stat` the
path as given, and if it does not exist, retry with `".json"` appended.
`error` models the returned `(nil, err)` not-found outcome; because the
fallback probe reassigns `err` (`fi, err = os.Stat(path + ".json")`), the
surfaced error is the second `os.Stat`'s, naming the `".json"`-suffixed
candidate. -/
def statOp (fs : FS) (p : FPath) : Except DBError Entry :=
  match fs.entry p with
  | some e => Except.ok e
  | none =>
      match fs.entry (jsonSibling p) with
      | some e => Except.ok e
      | none => Except.error (DBError.statNotFound (jsonSibling p))

/-- Model of `os.MkdirAll` walking the components of the target path below
`base`: create missing directories one level at a time, stop with failure on
the first component already taken by a regular file.  Returns the success
flag and the (possibly partially extended) filesystem, like `os.MkdirAll`
which keeps directories created before the failing level. -/
def mkdirWalk (fs : FS) (base : FPath) : List String → Bool × FS
  | [] => (true, fs)
  | c :: rest =>
      match fs.entry (base ++ [c]) with
      | some (Entry.file _) => (false, fs)
      | some Entry.dir => mkdirWalk fs (base ++ [c]) rest
      | none => mkdirWalk (fs.set (base ++ [c]) Entry.dir) (base ++ [c]) rest

/-- Model of `os.MkdirAll` on a path relative to the root (the root itself
is created first when missing, as `MkdirAll` creates all parents). -/
def mkdirAllOp (fs : FS) (comps : List String) : Bool × FS :=
  match fs.entry [] with
  | some (Entry.file _) => (false, fs)
  | some Entry.dir => mkdirWalk fs [] comps
  | none => mkdirWalk (fs.set [] Entry.dir) [] comps

/-- Model of `ioutil.WriteFile p content 0644`: truncate/create the file.
Fails if the path is an existing directory or the parent is not a directory. -/
def writeFileOp (fs : FS) (p : FPath) (content : List Char) : Option FS :=
  if p = [] then none
  else if fs.entry p = some Entry.dir then none
  else if fs.entry p.dropLast ≠ some Entry.dir then none
  else some (fs.set p (Entry.file content))

/-- Model of `os.Rename src dst` for regular files: fails if `src` is
missing or `dst` is an existing directory; otherwise atomically replaces
`dst` with `src`'s entry. -/
def renameOp (fs : FS) (src dst : FPath) : Option FS :=
  match fs.entry src with
  | none => none
  | some e =>
      match fs.entry dst with
      | some Entry.dir => none
      | _ => some ((fs.del src).set dst e)

/-! ## Driver operations (src/main.go) -/

/-- Model of `Driver.Write` (src/main.go:67-100).  Returns the error (or
`none` on success) together with the resulting filesystem. -/
def writeOp (fs : FS) (collection resource : String) (v : GoValue) : Option DBError × FS :=
  if collection = "" then (some .missingCollectionWrite, fs)
  else if resource = "" then (some .missingResourceWrite, fs)
  else
    match mkdirAllOp fs [collection] with
    | (false, fs1) => (some .mkdirFailed, fs1)
    | (true, fs1) =>
        match marshalIndent v with
        | none => (some .marshalUnsupported, fs1)
        | some b =>
            match writeFileOp fs1 [collection, resource ++ ".json" ++ ".tmp"] (b ++ ['\n']) with
            | none => (some .writeFileFailed, fs1)
            | some fs2 =>
                match renameOp fs2 [collection, resource ++ ".json" ++ ".tmp"]
                    [collection, resource ++ ".json"] with
                | none => (some .renameFailed, fs2)
                | some fs3 => (none, fs3)

/-- Model of `Driver.Read` (src/main.go:102-123): resolve
`<root>/<collection>/<resource>.json`, `stat` it (with the `".json"`
fallback probe), then read that exact path and `json.Unmarshal` it. -/
def readOp (fs : FS) (collection resource : String) : Except DBError JValue :=
  if collection = "" then .error .missingCollectionRead
  else if resource = "" then .error .missingResourceRead
  else
    match statOp fs [collection, resource ++ ".json"] with
    | .error e => .error e
    | .ok _ =>
        match fs.entry [collection, resource ++ ".json"] with
        | some (Entry.file b) =>
            match unmarshal b with
            | some v => .ok v
            | none => .error .unmarshalFailed
        | _ => .error (.readFileFailed [collection, resource ++ ".json"])

/-- The name under which `pe` is an immediate child of directory `p`,
if it is one. -/
def childName? (p q : FPath) : Option String :=
  if q.dropLast = p then q.getLast? else none

/-- The immediate child names of directory `p` (each listed once). -/
def readDirNames (fs : FS) (p : FPath) : List String :=
  (fs.filterMap (fun pe => childName? p pe.1)).dedup

/-- Model of `ioutil.ReadDir`: fails unless `p` is a directory. -/
def readDirOp (fs : FS) (p : FPath) : Except DBError (List String) :=
  match fs.entry p with
  | some Entry.dir => .ok (readDirNames fs p)
  | _ => .error .readDirFailed

/-- The `ReadAll` loop: read every listed entry of `dir` as a file; the
first failure (e.g. the entry is a subdirectory) aborts with the error. -/
def readFiles (fs : FS) (dir : FPath) : List String → Except DBError (List (List Char))
  | [] => .ok []
  | name :: rest =>
      match fs.entry (dir ++ [name]) with
      | some (Entry.file b) =>
          match readFiles fs dir rest with
          | .ok rs => .ok (b :: rs)
          | .error e => .error e
      | _ => .error (.readFileFailed (dir ++ [name]))

/-- Model of `Driver.ReadAll` (src/main.go:126-150).  Note the source
discards `ioutil.ReadDir`'s error (`files, _ := ioutil.ReadDir(dir)`), so a
listing failure degrades to an empty file list. -/
def readAllOp (fs : FS) (collection : String) : Except DBError (List (List Char)) :=
  if collection = "" then .error .missingCollectionReadAll
  else
    match statOp fs [collection] with
    | .error e => .error e
    | .ok _ =>
        match readDirOp fs [collection] with
        | .error _ => readFiles fs [collection] []
        | .ok names => readFiles fs [collection] names

/-- Model of `Driver.Delete` (src/main.go:152-172): no argument validation;
`stat` the joined path with the `".json"` fallback; remove a directory
recursively, remove `<path>.json` for a regular file, and report not-found
otherwise. -/
def deleteOp (fs : FS) (collection resource : String) : Option DBError × FS :=
  match statOp fs (pjoin (pjoin [] collection) resource) with
  | .error _ => (some (.deleteNotFound (pjoin (pjoin [] collection) resource)), fs)
  | .ok Entry.dir => (none, removeAll fs (pjoin (pjoin [] collection) resource))
  | .ok (Entry.file _) =>
      (none, removeAll fs (jsonSibling (pjoin (pjoin [] collection) resource)))

/-! ## Mutex registry (src/main.go:174-186)

Mutex identity is modelled by a numeric id; the registry allocates a fresh
id the first time a collection name is seen. -/

/-- Lookup in the lock registry. -/
def lookupLock : List (String × Nat) → String → Option Nat
  | [], _ => none
  | (k, m) :: rest, c => if c = k then some m else lookupLock rest c

/-- The `Driver.mutexes` map together with a fresh-id counter. -/
structure MutexReg where
  locks : List (String × Nat)
  next : Nat
  deriving DecidableEq

/-- Model of `Driver.getOrCreateMutex`: return the existing lock for the
collection, or create and register a fresh one. -/
def getOrCreateMutex (reg : MutexReg) (c : String) : Nat × MutexReg :=
  match lookupLock reg.locks c with
  | some m => (m, reg)
  | none => (reg.next, ⟨(c, reg.next) :: reg.locks, reg.next + 1⟩)

/-- The only way `mkdirWalk`/`mkdirAllOp` change the filesystem: a path that
was absent becomes a directory. -/
def mkdirRel (fs fs' : FS) : Prop :=
  ∀ q, fs'.entry q = fs.entry q ∨ (fs'.entry q = some Entry.dir ∧ fs.entry q = none)

/-- The content of a file entry (empty for anything else); used to state
what `ReadAll` returns. -/
def fileContent : Option Entry → List Char
  | some (Entry.file b) => b
  | _ => []

/-! ## Structural size of a JSON value (used to bound parser fuel) -/

mutual
/-- Number of parser recursion steps needed for a value. -/
def jsizeV : JValue → Nat
  | .null => 1
  | .bool _ => 1
  | .num _ => 1
  | .str _ => 1
  | .arr l => 1 + jsizeL l
  | .obj l => 1 + jsizeF l

/-- Number of parser recursion steps needed for an element list. -/
def jsizeL : List JValue → Nat
  | [] => 1
  | x :: xs => 1 + jsizeV x + jsizeL xs

/-- Number of parser recursion steps needed for a field list. -/
def jsizeF : List (List Char × JValue) → Nat
  | [] => 1
  | (_, v) :: fs => 1 + jsizeV v + jsizeF fs
end

/-- The rendering of a value is non-empty and begins with a character that
is neither whitespace nor a closing bracket (so the surrounding parser
neither skips into it nor mistakes it for the end of an array). -/
def startOk (l : List Char) : Prop :=
  ∃ c t, l = c :: t ∧ isWsC c = false ∧ c ≠ ']'

/-! ## Codec lemmas -/

theorem digitChar_isDigit : ∀ d : Nat, d < 10 → isDigitC (digitChar d) = true := by decide

theorem digitChar_val : ∀ d : Nat, d < 10 → (digitChar d).toNat - 48 = d := by decide

theorem natDigitsAux_digits : ∀ (fuel n : Nat), ∀ c ∈ natDigitsAux fuel n, isDigitC c = true := by
  intro fuel
  induction fuel with
  | zero => intro n c hc; simp [natDigitsAux] at hc
  | succ fuel ih =>
      intro n c hc
      by_cases h0 : n = 0
      · simp [natDigitsAux, h0] at hc
      · simp only [natDigitsAux, if_neg h0, List.mem_append, List.mem_singleton] at hc
        rcases hc with hc | hc
        · exact ih _ c hc
        · subst hc; exact digitChar_isDigit _ (Nat.mod_lt _ (by omega))

theorem natDigits_digits (n : Nat) : ∀ c ∈ natDigits n, isDigitC c = true := by
  intro c hc
  by_cases h0 : n = 0
  · simp [natDigits, h0] at hc; subst hc; decide
  · simp only [natDigits, if_neg h0] at hc
    exact natDigitsAux_digits n n c hc

theorem natDigits_ne_nil (n : Nat) : natDigits n ≠ [] := by
  by_cases h0 : n = 0
  · simp [natDigits, h0]
  · simp only [natDigits, if_neg h0]
    cases n with
    | zero => omega
    | succ m => simp [natDigitsAux, h0]

theorem parseDigits_append (l : List Char) :
    ∀ (acc : Nat) (rest : List Char), (∀ c ∈ l, isDigitC c = true) → digitFreeB rest = true →
    parseDigits (l ++ rest) acc = (l.foldl (fun a c => a * 10 + (c.toNat - 48)) acc, rest) := by
  induction l with
  | nil =>
      intro acc rest _ hr
      cases rest with
      | nil => simp [parseDigits]
      | cons c cs =>
          simp only [digitFreeB, Bool.not_eq_true'] at hr
          simp [parseDigits, hr]
  | cons c l ih =>
      intro acc rest hl hr
      have hc : isDigitC c = true := hl c (by simp)
      simp only [List.cons_append, parseDigits, if_pos hc, List.foldl_cons]
      exact ih _ rest (fun d hd => hl d (by simp [hd])) hr

theorem natDigitsAux_foldl : ∀ (fuel n acc : Nat), n ≤ fuel →
    (natDigitsAux fuel n).foldl (fun a c => a * 10 + (c.toNat - 48)) acc =
      acc * 10 ^ (natDigitsAux fuel n).length + n := by
  intro fuel
  induction fuel with
  | zero => intro n acc h; interval_cases n; simp [natDigitsAux]
  | succ fuel ih =>
      intro n acc h
      by_cases h0 : n = 0
      · simp [natDigitsAux, h0]
      · simp only [natDigitsAux, if_neg h0, List.foldl_append, List.foldl_cons, List.foldl_nil,
          List.length_append, List.length_cons, List.length_nil]
        have hdiv : n / 10 ≤ fuel := by omega
        rw [ih (n / 10) acc hdiv]
        rw [digitChar_val (n % 10) (Nat.mod_lt _ (by omega))]
        have hmod := Nat.div_add_mod n 10
        ring_nf
        omega

theorem parseDigits_natDigits (n : Nat) (rest : List Char) (hr : digitFreeB rest = true) :
    parseDigits (natDigits n ++ rest) 0 = (n, rest) := by
  rw [parseDigits_append _ 0 rest (natDigits_digits n) hr]
  by_cases h0 : n = 0
  · simp [natDigits, h0]
  · simp only [natDigits, if_neg h0]
    rw [natDigitsAux_foldl n n 0 le_rfl]
    simp

theorem skipWs_cons_not (c : Char) (s : List Char) (h : isWsC c = false) :
    skipWs (c :: s) = c :: s := by
  simp [skipWs, h]

theorem skipWs_cons_ws (c : Char) (s : List Char) (h : isWsC c = true) :
    skipWs (c :: s) = skipWs s := by
  simp [skipWs, h]

theorem skipWs_ws_append (l : List Char) :
    ∀ s, (∀ c ∈ l, isWsC c = true) → skipWs (l ++ s) = skipWs s := by
  induction l with
  | nil => intro s _; simp
  | cons c l ih =>
      intro s hl
      have hc : isWsC c = true := hl c (by simp)
      simp only [List.cons_append, skipWs, if_pos hc]
      exact ih s (fun d hd => hl d (by simp [hd]))

theorem skipWs_tabs (n : Nat) (s : List Char) : skipWs (tabsC n ++ s) = skipWs s := by
  apply skipWs_ws_append
  intro c hc
  rw [tabsC] at hc
  rw [List.eq_of_mem_replicate hc]
  decide

theorem skipWs_nl_tabs (n : Nat) (s : List Char) :
    skipWs ('\n' :: (tabsC n ++ s)) = skipWs s := by
  have h : isWsC '\n' = true := by decide
  simp only [skipWs, if_pos h]
  exact skipWs_tabs n s

theorem startOk_cons {c : Char} (t : List Char) (h1 : isWsC c = false) (h2 : c ≠ ']') :
    startOk (c :: t) := ⟨c, t, rfl, h1, h2⟩

theorem skipWs_startOk (l s : List Char) (h : startOk l) : skipWs (l ++ s) = l ++ s := by
  obtain ⟨c, t, rfl, hw, _⟩ := h
  simpa using skipWs_cons_not c (t ++ s) hw

theorem isDigit_props (c : Char) (h : isDigitC c = true) : isWsC c = false ∧ c ≠ ']' := by
  simp only [isDigitC, Bool.and_eq_true, decide_eq_true_eq] at h
  constructor
  · simp only [isWsC, Bool.or_eq_false_iff, decide_eq_false_iff_not]
    refine ⟨⟨⟨?_, ?_⟩, ?_⟩, ?_⟩ <;> rintro rfl <;> revert h <;> decide
  · rintro rfl; revert h; decide

theorem renderInt_startOk (n : Int) : startOk (renderInt n) := by
  by_cases hn : n < 0
  · rw [renderInt, if_pos hn]
    exact startOk_cons _ (by decide) (by decide)
  · rw [renderInt, if_neg hn]
    obtain ⟨c, t, hct⟩ : ∃ c t, natDigits n.toNat = c :: t := by
      cases h : natDigits n.toNat with
      | nil => exact absurd h (natDigits_ne_nil _)
      | cons c t => exact ⟨c, t, rfl⟩
    have hc : isDigitC c = true := natDigits_digits n.toNat c (by simp [hct])
    obtain ⟨h1, h2⟩ := isDigit_props c hc
    rw [hct]
    exact startOk_cons _ h1 h2

theorem renderV_startOk (ind : Nat) (v : JValue) : startOk (renderV ind v) := by
  cases v with
  | null => exact startOk_cons _ (by decide) (by decide)
  | bool b => cases b <;> exact startOk_cons _ (by decide) (by decide)
  | num n => exact renderInt_startOk n
  | str s => exact startOk_cons _ (by decide) (by decide)
  | arr l => cases l <;> exact startOk_cons _ (by decide) (by decide)
  | obj l => cases l <;> exact startOk_cons _ (by decide) (by decide)

theorem parseStrBody_esc (s : List Char) :
    ∀ rest, parseStrBody (escChars s ++ '"' :: rest) = some (s, rest) := by
  induction s with
  | nil => intro rest; rw [escChars]; rw [List.nil_append]; unfold parseStrBody; rfl
  | cons c cs ih =>
      intro rest
      rw [escChars]
      by_cases hc : c = '"' ∨ c = '\\'
      · rw [escChar, if_pos hc]
        show parseStrBody ('\\' :: c :: (escChars cs ++ '"' :: rest)) = _
        unfold parseStrBody
        rw [if_neg (by decide : ¬ ('\\' : Char) = '"'), if_pos rfl]
        show Option.map (fun p => (c :: p.1, p.2)) (parseStrBody (escChars cs ++ '"' :: rest)) = _
        rw [ih rest]
        rfl
      · push_neg at hc
        rw [escChar, if_neg (by tauto : ¬ (c = '"' ∨ c = '\\'))]
        show parseStrBody (c :: (escChars cs ++ '"' :: rest)) = _
        unfold parseStrBody
        rw [if_neg hc.1, if_neg hc.2]
        rw [ih rest]
        rfl

theorem jsizeV_pos (v : JValue) : 1 ≤ jsizeV v := by
  cases v <;> simp [jsizeV]

theorem jsizeL_pos (l : List JValue) : 1 ≤ jsizeL l := by
  cases l <;> simp [jsizeL] <;> omega

theorem jsizeF_pos (l : List (List Char × JValue)) : 1 ≤ jsizeF l := by
  cases l with
  | nil => simp [jsizeF]
  | cons f fs => obtain ⟨k, v⟩ := f; simp [jsizeF]; omega

mutual
theorem jsizeV_le (ind : Nat) (v : JValue) : jsizeV v ≤ (renderV ind v).length := by
  cases v with
  | null => simp [jsizeV, renderV, nullTok]
  | bool b => cases b <;> simp [jsizeV, renderV, boolTok]
  | num n =>
      rw [jsizeV, renderV]
      by_cases hn : n < 0
      · rw [renderInt, if_pos hn]; simp
      · rw [renderInt, if_neg hn]
        have := natDigits_ne_nil n.toNat
        have := List.length_pos.mpr this
        omega
  | str s => simp [jsizeV, renderV]
  | arr l =>
      cases l with
      | nil => simp [jsizeV, jsizeL, renderV]
      | cons x xs =>
          have h1 := jsizeV_le (ind + 1) x
          have h2 := jsizeL_le (ind + 1) ind xs
          simp only [jsizeV, jsizeL, renderV, List.length_cons, List.length_append, tabsC,
            List.length_replicate]
          omega
  | obj l =>
      cases l with
      | nil => simp [jsizeV, jsizeF, renderV]
      | cons f fs =>
          obtain ⟨k, v1⟩ := f
          have h1 := jsizeV_le (ind + 1) v1
          have h2 := jsizeF_le (ind + 1) ind fs
          simp only [jsizeV, jsizeF, renderV, List.length_cons, List.length_append, tabsC,
            List.length_replicate]
          omega

theorem jsizeL_le (i outer : Nat) (l : List JValue) : jsizeL l ≤ (renderArrTail i outer l).length := by
  cases l with
  | nil => simp [jsizeL, renderArrTail]
  | cons y ys =>
      have h1 := jsizeV_le i y
      have h2 := jsizeL_le i outer ys
      simp only [jsizeL, renderArrTail, List.length_cons, List.length_append, tabsC,
        List.length_replicate]
      omega

theorem jsizeF_le (i outer : Nat) (l : List (List Char × JValue)) :
    jsizeF l ≤ (renderObjTail i outer l).length := by
  cases l with
  | nil => simp [jsizeF, renderObjTail]
  | cons f fs =>
      obtain ⟨k, v1⟩ := f
      have h1 := jsizeV_le i v1
      have h2 := jsizeF_le i outer fs
      simp only [jsizeF, renderObjTail, List.length_cons, List.length_append, tabsC,
        List.length_replicate]
      omega
end

theorem digitFree_arrTail (i outer : Nat) (l : List JValue) (rest : List Char) :
    digitFreeB (renderArrTail i outer l ++ rest) = true := by
  cases l <;> rfl

theorem digitFree_objTail (i outer : Nat) (l : List (List Char × JValue)) (rest : List Char) :
    digitFreeB (renderObjTail i outer l ++ rest) = true := by
  cases l with
  | nil => rfl
  | cons f fs => obtain ⟨k, v⟩ := f; rfl

theorem parseVal_digit (fuel : Nat) (c : Char) (cs : List Char) (h : isDigitC c = true) :
    parseVal (fuel + 1) (c :: cs) =
      some (.num (Int.ofNat (parseDigits (c :: cs) 0).1), (parseDigits (c :: cs) 0).2) := by
  unfold parseVal
  rw [if_pos h]

theorem parseVal_minus (fuel : Nat) (d : Char) (cs : List Char) (h : isDigitC d = true) :
    parseVal (fuel + 1) ('-' :: d :: cs) =
      some (.num (-(Int.ofNat (parseDigits (d :: cs) 0).1)), (parseDigits (d :: cs) 0).2) := by
  show (if isDigitC d then
      some (JValue.num (-(Int.ofNat (parseDigits (d :: cs) 0).1)), (parseDigits (d :: cs) 0).2)
    else none) = _
  rw [if_pos h]

theorem parseVal_quote (fuel : Nat) (cs : List Char) :
    parseVal (fuel + 1) ('"' :: cs) =
      match parseStrBody cs with
      | some (s, rest) => some (.str s, rest)
      | none => none := rfl

theorem parseVal_lbrack (fuel : Nat) (cs : List Char) :
    parseVal (fuel + 1) ('[' :: cs) =
      match skipWs cs with
      | [] => none
      | d :: rest1 =>
          if d = ']' then some (.arr [], rest1)
          else
            match parseElems fuel (d :: rest1) with
            | some (vs, rest2) => some (.arr vs, rest2)
            | none => none := rfl

theorem parseVal_lbrace (fuel : Nat) (cs : List Char) :
    parseVal (fuel + 1) (lbraceC :: cs) =
      match skipWs cs with
      | [] => none
      | d :: rest1 =>
          if d = rbraceC then some (.obj [], rest1)
          else
            match parseFields fuel (d :: rest1) with
            | some (fs, rest2) => some (.obj fs, rest2)
            | none => none := rfl

theorem parseElems_succ (fuel : Nat) (s : List Char) :
    parseElems (fuel + 1) s =
      match parseVal fuel s with
      | none => none
      | some (v, s1) =>
          match skipWs s1 with
          | [] => none
          | d :: s2 =>
              if d = ',' then
                match parseElems fuel (skipWs s2) with
                | some (vs, s3) => some (v :: vs, s3)
                | none => none
              else if d = ']' then some ([v], s2)
              else none := rfl

theorem parseFields_succ (fuel : Nat) (cs : List Char) :
    parseFields (fuel + 1) ('"' :: cs) =
      match parseStrBody cs with
      | none => none
      | some (k, s1) =>
          match skipWs s1 with
          | ':' :: s2 =>
              match parseVal fuel (skipWs s2) with
              | none => none
              | some (v, s3) =>
                  match skipWs s3 with
                  | [] => none
                  | d :: s4 =>
                      if d = ',' then
                        match parseFields fuel (skipWs s4) with
                        | some (fs, s5) => some ((k, v) :: fs, s5)
                        | none => none
                      else if d = rbraceC then some ([(k, v)], s4)
                      else none
          | _ => none := rfl

mutual
theorem parseVal_render (fuel : Nat) (ind : Nat) (v : JValue) (rest : List Char)
    (h : jsizeV v < fuel) (hrest : digitFreeB rest = true) :
    parseVal fuel (renderV ind v ++ rest) = some (v, rest) := by
  match fuel with
  | 0 => exact absurd h (by have := jsizeV_pos v; omega)
  | fuel + 1 =>
      cases v with
      | null => rfl
      | bool b => cases b <;> rfl
      | num n =>
          show parseVal (fuel + 1) (renderInt n ++ rest) = some (.num n, rest)
          by_cases hn : n < 0
          · rw [renderInt, if_pos hn]
            obtain ⟨d, t, hdt⟩ : ∃ d t, natDigits n.natAbs = d :: t := by
              cases hh : natDigits n.natAbs with
              | nil => exact absurd hh (natDigits_ne_nil _)
              | cons d t => exact ⟨d, t, rfl⟩
            have hd : isDigitC d = true :=
              natDigits_digits _ d (by rw [hdt]; exact List.mem_cons_self _ _)
            rw [hdt, List.cons_append, List.cons_append]
            rw [parseVal_minus fuel d (t ++ rest) hd]
            rw [show d :: (t ++ rest) = natDigits n.natAbs ++ rest from by simp [hdt]]
            rw [parseDigits_natDigits _ rest hrest]
            have : -(Int.ofNat n.natAbs) = n := by
              rw [Int.ofNat_eq_coe]; omega
            rw [this]
          · rw [renderInt, if_neg hn]
            obtain ⟨d, t, hdt⟩ : ∃ d t, natDigits n.toNat = d :: t := by
              cases hh : natDigits n.toNat with
              | nil => exact absurd hh (natDigits_ne_nil _)
              | cons d t => exact ⟨d, t, rfl⟩
            have hd : isDigitC d = true :=
              natDigits_digits _ d (by rw [hdt]; exact List.mem_cons_self _ _)
            rw [hdt, List.cons_append]
            rw [parseVal_digit fuel d (t ++ rest) hd]
            rw [show d :: (t ++ rest) = natDigits n.toNat ++ rest from by simp [hdt]]
            rw [parseDigits_natDigits _ rest hrest]
            have : Int.ofNat n.toNat = n := by
              rw [Int.ofNat_eq_coe]; omega
            rw [this]
      | str s =>
          rw [show renderV ind (.str s) ++ rest = '"' :: (escChars s ++ ('"' :: rest)) from by
            simp [renderV]]
          rw [parseVal_quote]
          rw [parseStrBody_esc s rest]
      | arr l =>
          cases l with
          | nil => rfl
          | cons x xs =>
              rw [show renderV ind (.arr (x :: xs)) ++ rest =
                  '[' :: ('\n' :: (tabsC (ind + 1) ++ (renderV (ind + 1) x ++
                    (renderArrTail (ind + 1) ind xs ++ rest)))) from by
                simp [renderV]]
              rw [parseVal_lbrack]
              rw [skipWs_nl_tabs]
              rw [skipWs_startOk _ _ (renderV_startOk (ind + 1) x)]
              obtain ⟨c0, t0, hA, hw0, hne0⟩ := renderV_startOk (ind + 1) x
              rw [hA, List.cons_append]
              dsimp only
              rw [if_neg hne0]
              rw [← List.cons_append, ← hA]
              rw [parseElems_render fuel (ind + 1) ind x xs rest
                (by rw [jsizeV] at h; omega) hrest]
      | obj l =>
          cases l with
          | nil => rfl
          | cons f fs =>
              obtain ⟨k, v1⟩ := f
              rw [show renderV ind (.obj ((k, v1) :: fs)) ++ rest =
                  lbraceC :: ('\n' :: (tabsC (ind + 1) ++ ('"' :: (escChars k ++
                    ('"' :: ':' :: ' ' :: (renderV (ind + 1) v1 ++
                      (renderObjTail (ind + 1) ind fs ++ rest))))))) from by
                simp [renderV]]
              rw [parseVal_lbrace]
              rw [skipWs_nl_tabs]
              rw [skipWs_cons_not '"' _ (by decide)]
              dsimp only
              rw [if_neg (by decide : ¬ ('"' : Char) = rbraceC)]
              rw [parseFields_render fuel (ind + 1) ind k v1 fs rest
                (by rw [jsizeV] at h; omega) hrest]

theorem parseElems_render (fuel : Nat) (i outer : Nat) (x : JValue) (xs : List JValue)
    (rest : List Char) (h : jsizeL (x :: xs) < fuel) (hrest : digitFreeB rest = true) :
    parseElems fuel (renderV i x ++ (renderArrTail i outer xs ++ rest)) = some (x :: xs, rest) := by
  match fuel with
  | 0 => exact absurd h (by omega)
  | fuel + 1 =>
      rw [parseElems_succ]
      rw [parseVal_render fuel i x (renderArrTail i outer xs ++ rest)
        (by rw [jsizeL] at h; omega) (digitFree_arrTail i outer xs rest)]
      simp only []
      cases xs with
      | nil =>
          rw [show renderArrTail i outer ([] : List JValue) ++ rest =
              '\n' :: (tabsC outer ++ (']' :: rest)) from by simp [renderArrTail]]
          rw [skipWs_nl_tabs, skipWs_cons_not ']' rest (by decide)]
          simp
      | cons y ys =>
          rw [show renderArrTail i outer (y :: ys) ++ rest =
              ',' :: ('\n' :: (tabsC i ++ (renderV i y ++ (renderArrTail i outer ys ++ rest))))
            from by simp [renderArrTail]]
          rw [skipWs_cons_not ',' _ (by decide)]
          simp only [if_true]
          rw [skipWs_nl_tabs]
          rw [skipWs_startOk _ _ (renderV_startOk i y)]
          rw [parseElems_render fuel i outer y ys rest
            (by rw [jsizeL] at h; have := jsizeV_pos x; omega) hrest]

theorem parseFields_render (fuel : Nat) (i outer : Nat) (k : List Char) (v : JValue)
    (fs : List (List Char × JValue)) (rest : List Char)
    (h : jsizeF ((k, v) :: fs) < fuel) (hrest : digitFreeB rest = true) :
    parseFields fuel ('"' :: (escChars k ++ ('"' :: ':' :: ' ' :: (renderV i v ++
      (renderObjTail i outer fs ++ rest))))) = some ((k, v) :: fs, rest) := by
  match fuel with
  | 0 => exact absurd h (by omega)
  | fuel + 1 =>
      rw [parseFields_succ]
      rw [parseStrBody_esc k]
      simp only []
      rw [skipWs_cons_not ':' _ (by decide)]
      simp only []
      rw [skipWs_cons_ws ' ' _ (by decide)]
      rw [skipWs_startOk _ _ (renderV_startOk i v)]
      rw [parseVal_render fuel i v (renderObjTail i outer fs ++ rest)
        (by rw [jsizeF] at h; omega) (digitFree_objTail i outer fs rest)]
      simp only []
      cases fs with
      | nil =>
          rw [show renderObjTail i outer ([] : List (List Char × JValue)) ++ rest =
              '\n' :: (tabsC outer ++ (rbraceC :: rest)) from by simp [renderObjTail]]
          rw [skipWs_nl_tabs, skipWs_cons_not rbraceC rest (by decide)]
          dsimp only
          rw [if_neg (by decide : ¬ rbraceC = ','), if_pos rfl]
      | cons f2 fs2 =>
          obtain ⟨k2, v2⟩ := f2
          rw [show renderObjTail i outer ((k2, v2) :: fs2) ++ rest =
              ',' :: ('\n' :: (tabsC i ++ ('"' :: (escChars k2 ++
                ('"' :: ':' :: ' ' :: (renderV i v2 ++ (renderObjTail i outer fs2 ++ rest)))))))
            from by simp [renderObjTail]]
          rw [skipWs_cons_not ',' _ (by decide)]
          simp only [if_true]
          rw [skipWs_nl_tabs]
          rw [skipWs_cons_not '"' _ (by decide)]
          rw [parseFields_render fuel i outer k2 v2 fs2 rest
            (by rw [jsizeF] at h; have := jsizeV_pos v; omega) hrest]
end

/-- `json.Unmarshal` inverts `json.MarshalIndent` plus the driver's appended
trailing newline: the serialize–deserialize round trip is the identity. -/
theorem unmarshal_render (v : JValue) : unmarshal (renderV 0 v ++ ['\n']) = some v := by
  unfold unmarshal
  rw [skipWs_startOk _ _ (renderV_startOk 0 v)]
  have hsize : jsizeV v < (renderV 0 v ++ ['\n']).length + 1 := by
    have := jsizeV_le 0 v
    simp only [List.length_append, List.length_cons, List.length_nil]
    omega
  rw [parseVal_render _ 0 v ['\n'] hsize (by decide)]
  dsimp only
  rw [if_pos (by decide : skipWs ['\n'] = [])]

/-! ## Filesystem lemmas -/

theorem FS.entry_del (fs : FS) (p q : FPath) :
    (FS.del fs p).entry q = if q = p then none else fs.entry q := by
  induction fs with
  | nil => simp [FS.del, FS.entry, ite_self]
  | cons pe rest ih =>
      obtain ⟨p0, e0⟩ := pe
      by_cases hp : p0 = p
      · rw [show FS.del ((p0, e0) :: rest) p = FS.del rest p from by
          rw [FS.del, if_pos hp]]
        rw [ih]
        by_cases hq : q = p
        · simp [hq]
        · rw [if_neg hq, if_neg hq, FS.entry, if_neg (by rw [hp]; exact hq)]
      · rw [show FS.del ((p0, e0) :: rest) p = (p0, e0) :: FS.del rest p from by
          rw [FS.del, if_neg hp]]
        by_cases hq : q = p0
        · rw [FS.entry, if_pos hq, if_neg (by rw [hq]; exact hp), FS.entry, if_pos hq]
        · rw [FS.entry, if_neg hq, ih]
          by_cases hqp : q = p
          · simp [hqp]
          · rw [if_neg hqp, if_neg hqp, FS.entry, if_neg hq]

theorem FS.entry_set (fs : FS) (p q : FPath) (e : Entry) :
    (FS.set fs p e).entry q = if q = p then some e else fs.entry q := by
  by_cases hq : q = p
  · simp [FS.set, FS.entry, hq]
  · simp only [FS.set, FS.entry, if_neg hq]
    rw [FS.entry_del, if_neg hq]

theorem FS.entry_set_self (fs : FS) (p : FPath) (e : Entry) :
    (FS.set fs p e).entry p = some e := by
  rw [FS.entry_set, if_pos rfl]

theorem removeAll_entry (fs : FS) (p q : FPath) :
    (removeAll fs p).entry q = if p <+: q then none else fs.entry q := by
  induction fs with
  | nil => simp [removeAll, FS.entry, ite_self]
  | cons pe rest ih =>
      obtain ⟨p0, e0⟩ := pe
      by_cases hpre : p <+: p0
      · rw [show removeAll ((p0, e0) :: rest) p = removeAll rest p from by
          rw [removeAll, if_pos hpre]]
        rw [ih]
        by_cases hq : p <+: q
        · simp [hq]
        · rw [if_neg hq, if_neg hq, FS.entry,
            if_neg (by rintro rfl; exact hq hpre)]
      · rw [show removeAll ((p0, e0) :: rest) p = (p0, e0) :: removeAll rest p from by
          rw [removeAll, if_neg hpre]]
        by_cases hq : q = p0
        · rw [FS.entry, if_pos hq, if_neg (fun hcon => hpre (hq ▸ hcon)), FS.entry, if_pos hq]
        · rw [FS.entry, if_neg hq, ih]
          by_cases hqp : p <+: q
          · simp [hqp]
          · rw [if_neg hqp, if_neg hqp, FS.entry, if_neg hq]

theorem writeFileOp_some {fs fs' : FS} {p : FPath} {b : List Char}
    (h : writeFileOp fs p b = some fs') : fs' = fs.set p (Entry.file b) := by
  unfold writeFileOp at h
  split_ifs at h
  injection h with h2
  exact h2.symm

theorem renameOp_some {fs fs' : FS} {src dst : FPath}
    (h : renameOp fs src dst = some fs') :
    ∃ e, fs.entry src = some e ∧ fs' = (fs.del src).set dst e := by
  unfold renameOp at h
  cases hsrc : fs.entry src with
  | none => rw [hsrc] at h; cases h
  | some e =>
      rw [hsrc] at h
      refine ⟨e, rfl, ?_⟩
      cases hdst : fs.entry dst with
      | none =>
          rw [hdst] at h
          injection h with h2
          exact h2.symm
      | some e2 =>
          cases e2 with
          | dir => rw [hdst] at h; cases h
          | file b2 =>
              rw [hdst] at h
              injection h with h2
              exact h2.symm

theorem mkdirRel_refl (fs : FS) : mkdirRel fs fs := fun _ => Or.inl rfl

theorem mkdirRel_trans {fs1 fs2 fs3 : FS} (h12 : mkdirRel fs1 fs2) (h23 : mkdirRel fs2 fs3) :
    mkdirRel fs1 fs3 := by
  intro q
  rcases h23 q with h | ⟨h, h'⟩
  · rw [h]; exact h12 q
  · rcases h12 q with h2 | ⟨h2, _⟩
    · exact Or.inr ⟨h, by rw [← h2]; exact h'⟩
    · rw [h2] at h'; cases h'

theorem mkdirRel_set (fs : FS) (p : FPath) (h : fs.entry p = none) :
    mkdirRel fs (fs.set p Entry.dir) := by
  intro q
  rw [FS.entry_set]
  by_cases hq : q = p
  · subst hq; rw [if_pos rfl]; exact Or.inr ⟨rfl, h⟩
  · rw [if_neg hq]; exact Or.inl rfl

theorem mkdirWalk_rel (comps : List String) : ∀ (fs : FS) (base : FPath),
    mkdirRel fs (mkdirWalk fs base comps).2 := by
  induction comps with
  | nil => intro fs base; exact mkdirRel_refl fs
  | cons c rest ih =>
      intro fs base
      unfold mkdirWalk
      cases hq : fs.entry (base ++ [c]) with
      | some e =>
          cases e with
          | dir => exact ih fs (base ++ [c])
          | file b => exact mkdirRel_refl fs
      | none =>
          exact mkdirRel_trans (mkdirRel_set fs _ hq) (ih _ (base ++ [c]))

theorem mkdirAllOp_rel (fs : FS) (comps : List String) :
    mkdirRel fs (mkdirAllOp fs comps).2 := by
  unfold mkdirAllOp
  cases hr : fs.entry [] with
  | some e =>
      cases e with
      | dir => exact mkdirWalk_rel comps fs []
      | file b => exact mkdirRel_refl fs
  | none =>
      exact mkdirRel_trans (mkdirRel_set fs [] hr) (mkdirWalk_rel comps _ [])

/-! ## Claim theorems -/

/-- C1: for every non-empty collection `c`, non-empty resource `r`, and
JSON-serializable value `v`, a successful `Write(c, r, v)` followed by
`Read(c, r)` yields a value structurally equal to `v`. -/
theorem write_then_read (fs : FS) (c r : String) (jv : JValue)
    (hc : c ≠ "") (hr : r ≠ "")
    (hok : (writeOp fs c r (GoValue.json jv)).1 = none) :
    readOp (writeOp fs c r (GoValue.json jv)).2 c r = Except.ok jv := by
  unfold writeOp at hok ⊢
  rw [if_neg hc, if_neg hr] at hok ⊢
  rcases hmk : mkdirAllOp fs [c] with ⟨ok1, fs1⟩
  rw [hmk] at hok
  cases ok1 with
  | false => dsimp only at hok; exact Option.noConfusion hok
  | true =>
      dsimp only [marshalIndent] at hok ⊢
      rcases hwf : writeFileOp fs1 [c, r ++ ".json" ++ ".tmp"] (renderV 0 jv ++ ['\n']) with _ | fs2
      · rw [hwf] at hok; dsimp only at hok; exact Option.noConfusion hok
      · rw [hwf] at hok
        dsimp only at hok ⊢
        rcases hrn : renameOp fs2 [c, r ++ ".json" ++ ".tmp"] [c, r ++ ".json"] with _ | fs3
        · rw [hrn] at hok; dsimp only at hok; exact Option.noConfusion hok
        · dsimp only at hok ⊢
          obtain ⟨e, hsrc, hfs3⟩ := renameOp_some hrn
          rw [writeFileOp_some hwf, FS.entry_set_self] at hsrc
          injection hsrc with he
          have hfnl : fs3.entry [c, r ++ ".json"] =
              some (Entry.file (renderV 0 jv ++ ['\n'])) := by
            rw [hfs3, FS.entry_set_self, ← he]
          unfold readOp
          rw [if_neg hc, if_neg hr]
          unfold statOp
          rw [hfnl]
          dsimp only
          rw [unmarshal_render]

/-- Witness for C1 at a concrete store: write `null` to `users/john`, read
it back. -/
theorem write_then_read_witness :
    readOp (writeOp [([], Entry.dir)] "users" "john" (GoValue.json JValue.null)).2
      "users" "john" = Except.ok JValue.null :=
  write_then_read [([], Entry.dir)] "users" "john" JValue.null
    (by decide) (by decide) (by decide)

theorem self_ne_append_tmp (s : String) : s ≠ s ++ ".tmp" := by
  intro h
  have hlen := congrArg String.length h
  rw [String.length_append] at hlen
  have h4 : ".tmp".length = 4 := rfl
  omega

theorem fnl_ne_tmp (c r : String) :
    ([c, r ++ ".json"] : FPath) ≠ [c, r ++ ".json" ++ ".tmp"] := by
  intro h
  have h2 : r ++ ".json" = r ++ ".json" ++ ".tmp" := by
    injection h with _ h1
    injection h1
  exact self_ne_append_tmp (r ++ ".json") h2

/-- The behaviour of `os.MkdirAll(<root>/<c>)` on a store whose root exists
and whose collection path is not taken by a regular file: it succeeds, the
collection directory exists afterwards, and no deeper path is touched. -/
theorem mkdirAllOp_one (fs : FS) (c : String)
    (hroot : fs.entry [] = some Entry.dir)
    (hcol : ∀ b, fs.entry [c] ≠ some (Entry.file b)) :
    ∃ fs1, mkdirAllOp fs [c] = (true, fs1) ∧ fs1.entry [c] = some Entry.dir ∧
      ∀ x, fs1.entry [c, x] = fs.entry [c, x] := by
  unfold mkdirAllOp
  rw [hroot]
  unfold mkdirWalk
  simp only [List.nil_append]
  cases hcc : fs.entry [c] with
  | none =>
      refine ⟨fs.set [c] Entry.dir, ?_, FS.entry_set_self _ _ _, ?_⟩
      · rfl
      · intro x
        rw [FS.entry_set, if_neg (by simp)]
  | some e =>
      cases e with
      | dir => exact ⟨fs, rfl, hcc, fun _ => rfl⟩
      | file b => exact absurd hcc (hcol b)

/-- C6: `Write` with an empty collection or an empty resource fails with the
error naming the missing argument and leaves the filesystem untouched; with
non-empty arguments, a serializable value, and no I/O obstruction (root
directory present, collection path not a regular file, neither target path an
existing directory), `Write` returns no error. -/
theorem write_validation (fs : FS) (c r : String) (v : GoValue) (jv : JValue)
    (hc : c ≠ "") (hr : r ≠ "")
    (hroot : fs.entry [] = some Entry.dir)
    (hcol : ∀ b, fs.entry [c] ≠ some (Entry.file b))
    (htmp : fs.entry [c, r ++ ".json" ++ ".tmp"] ≠ some Entry.dir)
    (hfnl : fs.entry [c, r ++ ".json"] ≠ some Entry.dir) :
    writeOp fs "" r v = (some DBError.missingCollectionWrite, fs) ∧
    writeOp fs c "" v = (some DBError.missingResourceWrite, fs) ∧
    (writeOp fs c r (GoValue.json jv)).1 = none := by
  refine ⟨rfl, ?_, ?_⟩
  · unfold writeOp
    rw [if_neg hc, if_pos rfl]
  · unfold writeOp
    rw [if_neg hc, if_neg hr]
    obtain ⟨fs1, hmk, h1c, h1x⟩ := mkdirAllOp_one fs c hroot hcol
    rw [hmk]
    dsimp only [marshalIndent]
    have hw : writeFileOp fs1 [c, r ++ ".json" ++ ".tmp"] (renderV 0 jv ++ ['\n']) =
        some (fs1.set [c, r ++ ".json" ++ ".tmp"] (Entry.file (renderV 0 jv ++ ['\n']))) := by
      unfold writeFileOp
      rw [if_neg (by simp : ¬ ([c, r ++ ".json" ++ ".tmp"] : FPath) = [])]
      rw [if_neg (by rw [h1x]; exact htmp)]
      rw [if_neg (fun hcon => hcon (by
        show fs1.entry [c] = some Entry.dir
        exact h1c))]
    rw [hw]
    dsimp only
    have hex : ∃ fs3,
        renameOp (fs1.set [c, r ++ ".json" ++ ".tmp"] (Entry.file (renderV 0 jv ++ ['\n'])))
          [c, r ++ ".json" ++ ".tmp"] [c, r ++ ".json"] = some fs3 := by
      unfold renameOp
      rw [FS.entry_set_self]
      have hdst : (fs1.set [c, r ++ ".json" ++ ".tmp"]
          (Entry.file (renderV 0 jv ++ ['\n']))).entry [c, r ++ ".json"] =
          fs.entry [c, r ++ ".json"] := by
        rw [FS.entry_set, if_neg (fnl_ne_tmp c r), h1x]
      rw [hdst]
      cases hd : fs.entry [c, r ++ ".json"] with
      | none => exact ⟨_, rfl⟩
      | some e =>
          cases e with
          | dir => exact absurd hd hfnl
          | file b2 => exact ⟨_, rfl⟩
    obtain ⟨fs3, hrn⟩ := hex
    rw [hrn]

/-- Witness for C6 at a concrete store. -/
theorem write_validation_witness :
    writeOp [([], Entry.dir)] "" "john" GoValue.unsupported =
      (some DBError.missingCollectionWrite, [([], Entry.dir)]) ∧
    writeOp [([], Entry.dir)] "users" "" GoValue.unsupported =
      (some DBError.missingResourceWrite, [([], Entry.dir)]) ∧
    (writeOp [([], Entry.dir)] "users" "john" (GoValue.json JValue.null)).1 = none :=
  write_validation [([], Entry.dir)] "users" "john" GoValue.unsupported JValue.null
    (by decide) (by decide) (by decide)
    (fun b h => by simp [FS.entry] at h) (by decide) (by decide)

/-- Counterexample to C2 as stated: on a store holding only its root
directory, `Write` of a non-serializable value into collection `"c"` surfaces
the serialization error, but the collection directory has been created —
`os.MkdirAll` runs before `json.MarshalIndent` (src/main.go:84-91), so a
filesystem mutation does occur. -/
theorem write_unsupported_cex :
    (writeOp [([], Entry.dir)] "c" "r" GoValue.unsupported).1 =
      some DBError.marshalUnsupported ∧
    ((writeOp [([], Entry.dir)] "c" "r" GoValue.unsupported).2).entry ["c"] =
      some Entry.dir ∧
    FS.entry [([], Entry.dir)] ["c"] = none := by
  decide

/-- C2 (amended): `Write` of a non-serializable value with non-empty
arguments always returns an error and creates or replaces no *file*; however
`os.MkdirAll` runs before serialization, so the collection directory (and
missing parents) may be created before the error is surfaced — the only
possible mutation is a previously absent path becoming a directory. -/
theorem write_unsupported (fs : FS) (c r : String) (hc : c ≠ "") (hr : r ≠ "") :
    (writeOp fs c r GoValue.unsupported).1.isSome = true ∧
    ∀ p, ((writeOp fs c r GoValue.unsupported).2).entry p = fs.entry p ∨
      (((writeOp fs c r GoValue.unsupported).2).entry p = some Entry.dir ∧
        fs.entry p = none) := by
  unfold writeOp
  rw [if_neg hc, if_neg hr]
  rcases hmk : mkdirAllOp fs [c] with ⟨ok1, fs1⟩
  have hrel : mkdirRel fs fs1 := by
    have h := mkdirAllOp_rel fs [c]
    rw [hmk] at h
    exact h
  cases ok1 with
  | false => exact ⟨rfl, hrel⟩
  | true => exact ⟨rfl, hrel⟩

/-- Witness for the amended C2 at a concrete store. -/
theorem write_unsupported_witness :
    (writeOp [([], Entry.dir)] "c" "r" GoValue.unsupported).1.isSome = true ∧
    (((writeOp [([], Entry.dir)] "c" "r" GoValue.unsupported).2).entry ["c"] =
        FS.entry [([], Entry.dir)] ["c"] ∨
      (((writeOp [([], Entry.dir)] "c" "r" GoValue.unsupported).2).entry ["c"] =
          some Entry.dir ∧ FS.entry [([], Entry.dir)] ["c"] = none)) :=
  ⟨(write_unsupported [([], Entry.dir)] "c" "r" (by decide) (by decide)).1,
   (write_unsupported [([], Entry.dir)] "c" "r" (by decide) (by decide)).2 ["c"]⟩

/-- C5: `Delete` validates neither argument; with both empty the joined path
is the store root itself, which `stat` finds as a directory, so `Delete`
succeeds and recursively removes the entire root — every collection and
resource in the store is destroyed. -/
theorem delete_empty_args_nukes_root (fs : FS) (hroot : fs.entry [] = some Entry.dir) :
    (deleteOp fs "" "").1 = none ∧ ∀ p, ((deleteOp fs "" "").2).entry p = none := by
  unfold deleteOp
  rw [show pjoin (pjoin [] "") "" = ([] : FPath) from rfl]
  unfold statOp
  rw [hroot]
  dsimp only
  refine ⟨rfl, fun p => ?_⟩
  rw [removeAll_entry, if_pos List.nil_prefix]

/-- Witness for C5: a store with one resource loses everything, including
its root directory. -/
theorem delete_empty_args_nukes_root_witness :
    (deleteOp [([], Entry.dir), (["users"], Entry.dir),
        (["users", "john.json"], Entry.file ['1'])] "" "").1 = none ∧
    ((deleteOp [([], Entry.dir), (["users"], Entry.dir),
        (["users", "john.json"], Entry.file ['1'])] "" "").2).entry
      ["users", "john.json"] = none ∧
    ((deleteOp [([], Entry.dir), (["users"], Entry.dir),
        (["users", "john.json"], Entry.file ['1'])] "" "").2).entry [] = none :=
  ⟨(delete_empty_args_nukes_root _ (by decide)).1,
   (delete_empty_args_nukes_root _ (by decide)).2 ["users", "john.json"],
   (delete_empty_args_nukes_root _ (by decide)).2 []⟩

/-- Counterexample to C3 as stated: with resource file `c/r.json` on disk,
`Delete(c, "r.json")` — the caller passing the name *with* the extension —
reports success but removes only the nonexistent `c/r.json.json`, leaving
the resource file in place: deletion does **not** work when the caller
includes the `.json` extension. -/
theorem delete_with_extension_cex :
    (deleteOp [([], Entry.dir), (["c"], Entry.dir),
        (["c", "r.json"], Entry.file ['1'])] "c" "r.json").1 = none ∧
    ((deleteOp [([], Entry.dir), (["c"], Entry.dir),
        (["c", "r.json"], Entry.file ['1'])] "c" "r.json").2).entry ["c", "r.json"] =
      some (Entry.file ['1']) := by
  decide

/-- C3 (amended): `Delete(c, r)` resolves `<root>/c/r` by trying the path
as-is and else with `".json"` appended; a directory is removed recursively
with everything under it (so `Delete(c, "")` removes the whole collection);
for a regular file the removal targets the `".json"`-suffixed sibling of the
probed base path, which deletes the resource only when the caller passed the
name *without* the extension — with the extension included the target is
`<path>.json.json`, the actual file survives, and no error is reported
(`os.RemoveAll` of a missing path succeeds); if neither a file nor a
directory is found, `Delete` returns a not-found error. -/
theorem delete_resolution (fs : FS) (c r : String) :
    (∀ e, statOp fs (pjoin (pjoin [] c) r) = Except.error e →
      deleteOp fs c r = (some (DBError.deleteNotFound (pjoin (pjoin [] c) r)), fs)) ∧
    (statOp fs (pjoin (pjoin [] c) r) = Except.ok Entry.dir →
      (deleteOp fs c r).1 = none ∧
      (∀ q, pjoin (pjoin [] c) r <+: q → ((deleteOp fs c r).2).entry q = none) ∧
      (∀ q, ¬ pjoin (pjoin [] c) r <+: q → ((deleteOp fs c r).2).entry q = fs.entry q)) ∧
    (∀ b, statOp fs (pjoin (pjoin [] c) r) = Except.ok (Entry.file b) →
      (deleteOp fs c r).1 = none ∧
      (∀ q, jsonSibling (pjoin (pjoin [] c) r) <+: q →
        ((deleteOp fs c r).2).entry q = none) ∧
      (∀ q, ¬ jsonSibling (pjoin (pjoin [] c) r) <+: q →
        ((deleteOp fs c r).2).entry q = fs.entry q)) := by
  refine ⟨?_, ?_, ?_⟩
  · intro e h
    unfold deleteOp
    rw [h]
  · intro h
    unfold deleteOp
    rw [h]
    refine ⟨rfl, fun q hq => ?_, fun q hq => ?_⟩
    · dsimp only
      rw [removeAll_entry, if_pos hq]
    · dsimp only
      rw [removeAll_entry, if_neg hq]
  · intro b h
    unfold deleteOp
    rw [h]
    refine ⟨rfl, fun q hq => ?_, fun q hq => ?_⟩
    · dsimp only
      rw [removeAll_entry, if_pos hq]
    · dsimp only
      rw [removeAll_entry, if_neg hq]

/-- Witness for the amended C3: deleting `c/r` *without* the extension does
remove the stored `c/r.json`. -/
theorem delete_resolution_witness :
    (deleteOp [([], Entry.dir), (["c"], Entry.dir),
        (["c", "r.json"], Entry.file ['1'])] "c" "r").1 = none ∧
    ((deleteOp [([], Entry.dir), (["c"], Entry.dir),
        (["c", "r.json"], Entry.file ['1'])] "c" "r").2).entry ["c", "r.json"] = none :=
  ⟨((delete_resolution [([], Entry.dir), (["c"], Entry.dir),
        (["c", "r.json"], Entry.file ['1'])] "c" "r").2.2 ['1'] rfl).1,
   ((delete_resolution [([], Entry.dir), (["c"], Entry.dir),
        (["c", "r.json"], Entry.file ['1'])] "c" "r").2.2 ['1'] rfl).2.1
     ["c", "r.json"] (by decide)⟩

/-- Counterexample to C4 as stated: resource `users/john.json` exists, but a
caller that already includes the `.json` extension gets a not-found error —
`Read` probes `users/john.json.json` and `users/john.json.json.json`, never
the actual file, so including the extension does *not* still read the
resource. -/
theorem read_with_extension_cex :
    FS.entry [([], Entry.dir), (["users"], Entry.dir),
        (["users", "john.json"], Entry.file ['n', 'u', 'l', 'l', '\n'])]
      ["users", "john.json"] = some (Entry.file ['n', 'u', 'l', 'l', '\n']) ∧
    readOp [([], Entry.dir), (["users"], Entry.dir),
        (["users", "john.json"], Entry.file ['n', 'u', 'l', 'l', '\n'])]
      "users" "john.json" =
      Except.error (DBError.statNotFound ["users", "john.json.json.json"]) :=
  ⟨rfl, rfl⟩

/-- C4 (amended): `Read(c, r)` resolves `<root>/c/r.json`; when that exact
path holds the resource file it is read and decoded; if the exact path does
not exist, the `stat` fallback probes `<root>/c/r.json.json` (appending
`".json"` a second time), but even when that fallback path exists the
subsequent `ReadFile` still targets the original `r.json` path and fails —
so a caller that already included the `.json` extension does **not**
successfully read; if no candidate path exists `Read` returns a not-found
error (the one `stat`'s reassigned `err` carries, i.e. the second
`os.Stat`'s, naming the fallback path). -/
theorem read_resolution (fs : FS) (c r : String) (hc : c ≠ "") (hr : r ≠ "") :
    (∀ b, fs.entry [c, r ++ ".json"] = some (Entry.file b) →
      readOp fs c r = (match unmarshal b with
        | some v => Except.ok v
        | none => Except.error DBError.unmarshalFailed)) ∧
    (fs.entry [c, r ++ ".json"] = none →
      fs.entry [c, r ++ ".json" ++ ".json"] = none →
      readOp fs c r =
        Except.error (DBError.statNotFound [c, r ++ ".json" ++ ".json"])) ∧
    (∀ e, fs.entry [c, r ++ ".json"] = none →
      fs.entry [c, r ++ ".json" ++ ".json"] = some e →
      readOp fs c r = Except.error (DBError.readFileFailed [c, r ++ ".json"])) := by
  refine ⟨?_, ?_, ?_⟩
  · intro b h
    unfold readOp statOp
    rw [if_neg hc, if_neg hr, h]
  · intro h1 h2
    unfold readOp statOp
    rw [if_neg hc, if_neg hr, h1]
    rw [show jsonSibling [c, r ++ ".json"] = [c, r ++ ".json" ++ ".json"] from rfl, h2]
  · intro e h1 h2
    unfold readOp statOp
    rw [if_neg hc, if_neg hr, h1]
    rw [show jsonSibling [c, r ++ ".json"] = [c, r ++ ".json" ++ ".json"] from rfl, h2]

/-- Witness for the amended C4: reading an absent resource yields the
not-found error of the fallback probe. -/
theorem read_resolution_witness :
    readOp [([], Entry.dir), (["users"], Entry.dir)] "users" "nosuch" =
      Except.error (DBError.statNotFound ["users", "nosuch.json.json"]) :=
  (read_resolution [([], Entry.dir), (["users"], Entry.dir)] "users" "nosuch"
    (by decide) (by decide)).2.1 rfl rfl

theorem readFiles_ok (fs : FS) (dir : FPath) (names : List String)
    (h : ∀ n ∈ names, ∃ b, fs.entry (dir ++ [n]) = some (Entry.file b)) :
    readFiles fs dir names =
      Except.ok (names.map (fun n => fileContent (fs.entry (dir ++ [n])))) := by
  induction names with
  | nil => rfl
  | cons n rest ih =>
      obtain ⟨b, hb⟩ := h n (by simp)
      unfold readFiles
      rw [hb, ih (fun m hm => h m (by simp [hm]))]
      simp [fileContent, hb]

theorem readFiles_err (fs : FS) (dir : FPath) (names : List String)
    (h : ∃ n ∈ names, ∀ b, fs.entry (dir ++ [n]) ≠ some (Entry.file b)) :
    ∃ n ∈ names, (∀ b, fs.entry (dir ++ [n]) ≠ some (Entry.file b)) ∧
      readFiles fs dir names = Except.error (DBError.readFileFailed (dir ++ [n])) := by
  induction names with
  | nil => simp at h
  | cons n rest ih =>
      by_cases hn : ∀ b, fs.entry (dir ++ [n]) ≠ some (Entry.file b)
      · refine ⟨n, by simp, hn, ?_⟩
        unfold readFiles
        cases hq : fs.entry (dir ++ [n]) with
        | none => rfl
        | some e =>
            cases e with
            | dir => rfl
            | file b => exact absurd hq (hn b)
      · push_neg at hn
        obtain ⟨b, hb⟩ := hn
        obtain ⟨n', hn', hfail⟩ := h
        rcases List.mem_cons.mp hn' with rfl | hmem
        · exact absurd hb (hfail b)
        · obtain ⟨m, hm, hmf, he⟩ := ih ⟨n', hmem, hfail⟩
          refine ⟨m, by simp [hm], hmf, ?_⟩
          unfold readFiles
          rw [hb, he]

/-- C7: on an existing collection directory, if every listed entry is a
regular file `ReadAll` returns the raw content of every file in the
directory; if some entry cannot be read as a file (e.g. it is a
subdirectory), the whole operation aborts with an error — by its type it
returns the error alone, with no partial result list. -/
theorem readAll_spec (fs : FS) (c : String) (hc : c ≠ "")
    (hdir : fs.entry [c] = some Entry.dir) :
    ((∀ n ∈ readDirNames fs [c], ∃ b, fs.entry [c, n] = some (Entry.file b)) →
      readAllOp fs c = Except.ok ((readDirNames fs [c]).map
        (fun n => fileContent (fs.entry [c, n])))) ∧
    ((∃ n ∈ readDirNames fs [c], ∀ b, fs.entry [c, n] ≠ some (Entry.file b)) →
      ∃ n ∈ readDirNames fs [c], (∀ b, fs.entry [c, n] ≠ some (Entry.file b)) ∧
        readAllOp fs c = Except.error (DBError.readFileFailed [c, n])) := by
  have hstat : statOp fs [c] = Except.ok Entry.dir := by
    unfold statOp
    rw [hdir]
  have hrd : readDirOp fs [c] = Except.ok (readDirNames fs [c]) := by
    unfold readDirOp
    rw [hdir]
  constructor
  · intro h
    unfold readAllOp
    rw [if_neg hc, hstat]
    dsimp only
    rw [hrd]
    exact readFiles_ok fs [c] (readDirNames fs [c]) h
  · intro h
    obtain ⟨n, hn, hnf, he⟩ := readFiles_err fs [c] (readDirNames fs [c]) h
    refine ⟨n, hn, hnf, ?_⟩
    unfold readAllOp
    rw [if_neg hc, hstat]
    dsimp only
    rw [hrd]
    dsimp only
    exact he

/-- Witness for C7: a collection with two resource files is returned in
full; the same collection with a stray subdirectory aborts with an error. -/
theorem readAll_spec_witness :
    readAllOp [([], Entry.dir), (["users"], Entry.dir),
        (["users", "a.json"], Entry.file ['1']),
        (["users", "b.json"], Entry.file ['2'])] "users" =
      Except.ok [['1'], ['2']] ∧
    readAllOp [([], Entry.dir), (["users"], Entry.dir),
        (["users", "a.json"], Entry.file ['1']),
        (["users", "sub"], Entry.dir)] "users" =
      Except.error (DBError.readFileFailed ["users", "sub"]) :=
  ⟨(readAll_spec [([], Entry.dir), (["users"], Entry.dir),
        (["users", "a.json"], Entry.file ['1']),
        (["users", "b.json"], Entry.file ['2'])] "users" (by decide) (by decide)).1
    (by
      intro n hn
      rw [show readDirNames [([], Entry.dir), (["users"], Entry.dir),
          (["users", "a.json"], Entry.file ['1']),
          (["users", "b.json"], Entry.file ['2'])] ["users"] =
          ["a.json", "b.json"] from rfl] at hn
      rcases List.mem_cons.mp hn with rfl | hn
      · exact ⟨['1'], rfl⟩
      · rcases List.mem_cons.mp hn with rfl | hn
        · exact ⟨['2'], rfl⟩
        · simp at hn),
   by
    obtain ⟨n, hn, hnf, he⟩ :=
      (readAll_spec [([], Entry.dir), (["users"], Entry.dir),
          (["users", "a.json"], Entry.file ['1']),
          (["users", "sub"], Entry.dir)] "users" (by decide) (by decide)).2
        ⟨"sub", by decide, fun b h => by simp [FS.entry] at h⟩
    rw [show readDirNames [([], Entry.dir), (["users"], Entry.dir),
        (["users", "a.json"], Entry.file ['1']),
        (["users", "sub"], Entry.dir)] ["users"] = ["a.json", "sub"] from rfl] at hn
    rcases List.mem_cons.mp hn with rfl | hn2
    · exact absurd rfl (hnf ['1'])
    · rcases List.mem_cons.mp hn2 with rfl | hn3
      · exact he
      · simp at hn3⟩

/-- Counterexample to C8 as stated: when the collection path is a regular
file, `stat` succeeds but `ioutil.ReadDir` fails; the source discards that
error (`files, _ := ioutil.ReadDir(dir)`, src/main.go:137), so `ReadAll`
returns a silently empty result with no error instead of surfacing the
listing failure. -/
theorem readall_swallows_listing_cex :
    FS.entry [([], Entry.dir), (["c"], Entry.file ['x'])] ["c"] =
      some (Entry.file ['x']) ∧
    readAllOp [([], Entry.dir), (["c"], Entry.file ['x'])] "c" = Except.ok [] :=
  ⟨rfl, rfl⟩

/-- C8 (amended): errors from the existence probe and from reading
individual files during `ReadAll` are returned to the caller, but a failure
to list the collection directory's entries is *not*: `ReadDir`'s error is
discarded, and when the collection path resolves to a regular file `ReadAll`
returns a silently empty result list with no error. -/
theorem readall_error_propagation (fs : FS) (c : String) (b : List Char) (hc : c ≠ "") :
    (fs.entry [c] = some (Entry.file b) → readAllOp fs c = Except.ok []) ∧
    (fs.entry [c] = none → fs.entry [c ++ ".json"] = none →
      readAllOp fs c = Except.error (DBError.statNotFound [c ++ ".json"])) ∧
    ((∃ n ∈ readDirNames fs [c], ∀ b2, fs.entry [c, n] ≠ some (Entry.file b2)) →
      fs.entry [c] = some Entry.dir → ∃ e, readAllOp fs c = Except.error e) := by
  refine ⟨?_, ?_, ?_⟩
  · intro h
    unfold readAllOp
    rw [if_neg hc]
    rw [show statOp fs [c] = Except.ok (Entry.file b) from by unfold statOp; rw [h]]
    dsimp only
    rw [show readDirOp fs [c] = Except.error DBError.readDirFailed from by
      unfold readDirOp; rw [h]]
    rfl
  · intro h1 h2
    unfold readAllOp
    rw [if_neg hc]
    rw [show statOp fs [c] = Except.error (DBError.statNotFound [c ++ ".json"]) from by
      unfold statOp
      rw [h1, show jsonSibling [c] = [c ++ ".json"] from rfl, h2]]
  · intro h hdir
    obtain ⟨n, hn, hnf, he⟩ := readFiles_err fs [c] (readDirNames fs [c]) h
    refine ⟨DBError.readFileFailed [c, n], ?_⟩
    unfold readAllOp
    rw [if_neg hc]
    rw [show statOp fs [c] = Except.ok Entry.dir from by unfold statOp; rw [hdir]]
    dsimp only
    rw [show readDirOp fs [c] = Except.ok (readDirNames fs [c]) from by
      unfold readDirOp; rw [hdir]]
    dsimp only
    exact he

/-- Witness for the amended C8 at concrete stores: the listing failure is
swallowed, the existence failure is surfaced. -/
theorem readall_error_propagation_witness :
    readAllOp [([], Entry.dir), (["c"], Entry.file ['x'])] "c" = Except.ok [] ∧
    readAllOp [([], Entry.dir)] "c" =
      Except.error (DBError.statNotFound ["c.json"]) :=
  ⟨(readall_error_propagation [([], Entry.dir), (["c"], Entry.file ['x'])] "c" ['x']
      (by decide)).1 rfl,
   (readall_error_propagation [([], Entry.dir)] "c" [] (by decide)).2.1 rfl rfl⟩

/-- C9: the mutex registry hands out at most one lock per collection name:
a repeated `getOrCreateMutex` call returns the same lock and leaves the
registry unchanged, the returned lock is the one registered under the name,
and every previously registered entry survives unchanged (the registry grows
monotonically; nothing is overwritten or removed). -/
theorem getOrCreateMutex_spec (reg : MutexReg) (c : String) :
    (getOrCreateMutex ((getOrCreateMutex reg c).2) c).1 = (getOrCreateMutex reg c).1 ∧
    (getOrCreateMutex ((getOrCreateMutex reg c).2) c).2 = (getOrCreateMutex reg c).2 ∧
    lookupLock ((getOrCreateMutex reg c).2).locks c = some (getOrCreateMutex reg c).1 ∧
    (∀ c' m, lookupLock reg.locks c' = some m →
      lookupLock ((getOrCreateMutex reg c).2).locks c' = some m) := by
  unfold getOrCreateMutex
  cases hl : lookupLock reg.locks c with
  | some m =>
      dsimp only
      rw [hl]
      exact ⟨rfl, rfl, rfl, fun _ _ h => h⟩
  | none =>
      dsimp only
      have hnew : lookupLock ((c, reg.next) :: reg.locks) c = some reg.next := by
        unfold lookupLock
        rw [if_pos rfl]
      rw [hnew]
      refine ⟨rfl, rfl, rfl, fun c' m h => ?_⟩
      by_cases hcc : c' = c
      · subst hcc
        rw [hl] at h
        cases h
      · show (if c' = c then some reg.next else lookupLock reg.locks c') = some m
        rw [if_neg hcc]
        exact h

/-- Witness for C9 at a concrete registry. -/
theorem getOrCreateMutex_spec_witness :
    (getOrCreateMutex ((getOrCreateMutex ⟨[("a", 0)], 1⟩ "b").2) "b").1 =
      (getOrCreateMutex ⟨[("a", 0)], 1⟩ "b").1 ∧
    lookupLock ((getOrCreateMutex ⟨[("a", 0)], 1⟩ "b").2).locks "a" = some 0 :=
  ⟨(getOrCreateMutex_spec ⟨[("a", 0)], 1⟩ "b").1,
   (getOrCreateMutex_spec ⟨[("a", 0)], 1⟩ "b").2.2.2 "a" 0 rfl⟩
